import Mathlib

/-!
Verification of the LLM-orchestration pipeline of the renderCV server
(`app.py`).  Python strings are embedded as `List Char`; the Python string
operations used by the code (`strip`, `startswith`, `removeprefix`,
`removesuffix`, `split`, `rsplit`, substring test `in`, `lower`) are modelled
by executable Lean functions with Python's exact semantics, including
Python's left-to-right non-overlapping `split` and right-to-left `rsplit`.
The inlined retry loop shared by all five endpoints is modelled by `runLoop`,
the per-attempt exception classification by `classifyFailure`, and the
external renderer plus filesystem by an explicit environment record.
-/

namespace RenderCVServer

/-- Python strings, embedded as lists of characters. -/
abbrev Str := List Char

instance {ε α : Type} [DecidableEq ε] [DecidableEq α] : DecidableEq (Except ε α)
  | .ok a, .ok b => decidable_of_iff (a = b) (by simp)
  | .ok _, .error _ => .isFalse (by simp)
  | .error _, .ok _ => .isFalse (by simp)
  | .error a, .error b => decidable_of_iff (a = b) (by simp)

/-- Whitespace characters stripped by Python's `str.strip()` (ASCII range). -/
def isPyWs (c : Char) : Bool :=
  c = ' ' || c = '\t' || c = '\n' || c = '\r' || c = '\x0b' || c = '\x0c'

/-- Python `s.strip()`: remove leading and trailing whitespace. -/
def pyStrip (s : Str) : Str :=
  ((s.dropWhile isPyWs).reverse.dropWhile isPyWs).reverse

/-- Python `s.lower()` (ASCII case folding, which is all the code relies on). -/
def pyLower (s : Str) : Str := s.map Char.toLower

/-- Python `s.removeprefix(p)`: drop `p` from the front when present. -/
def removePre (p s : Str) : Str :=
  if List.isPrefixOf p s then s.drop p.length else s

/-- Python `s.removesuffix(p)`: drop a nonempty `p` from the end when present. -/
def removeSuf (p s : Str) : Str :=
  if !p.isEmpty && List.isSuffixOf p s then s.take (s.length - p.length) else s

/-- Python `needle in hay`: substring containment. -/
def containsSub (needle : Str) : Str → Bool
  | [] => needle.isEmpty
  | c :: t => List.isPrefixOf needle (c :: t) || containsSub needle t

/-- Python `s.split(sep, 1)`: cut at the first occurrence of `sep`, returning
the part before it and, when `sep` occurs, the part after it. -/
def splitFirst (sep : Str) : Str → Str × Option Str
  | [] => ([], none)
  | c :: t =>
    if !sep.isEmpty && List.isPrefixOf sep (c :: t) then
      ([], some ((c :: t).drop sep.length))
    else
      let r := splitFirst sep t
      (c :: r.1, r.2)

/-- Python `s.split(sep, 1)[1]`; the code only evaluates this under a
`startswith` guard, so the no-occurrence case (a Python `IndexError`) is
unreachable and mapped to `s`. -/
def splitTailAfter (sep s : Str) : Str :=
  match splitFirst sep s with
  | (_, some rest) => rest
  | (_, none) => s

/-- Python `s.rsplit(sep, 1)[0]`: everything before the rightmost occurrence
of `sep` (found scanning from the right), or all of `s` when `sep` is absent. -/
def rsplitHead (sep s : Str) : Str :=
  match splitFirst sep.reverse s.reverse with
  | (_, some rest) => rest.reverse
  | (_, none) => s

/-- Python `s.split(sep)` for nonempty `sep`: left-to-right, non-overlapping.
The fuel argument only bounds the recursion (each step consumes at least one
character, so any fuel above the input length is enough); `pySplit` below
supplies `s.length + 1`. -/
def pySplitF (sep : Str) : Nat → Str → List Str
  | 0, s => [s]
  | _ + 1, [] => [[]]
  | f + 1, c :: t =>
    if !sep.isEmpty && List.isPrefixOf sep (c :: t) then
      [] :: pySplitF sep f ((c :: t).drop sep.length)
    else
      match pySplitF sep f t with
      | [] => [[c]]
      | p :: ps => (c :: p) :: ps

/-- Python `s.split(sep)` for nonempty `sep`. -/
def pySplit (sep s : Str) : List Str := pySplitF sep (s.length + 1) s

/-! ### JSON structural validity

The tailoring endpoint feeds the fence-stripped LLM text to the external
parser `json.loads`; only whether parsing succeeds matters to the control
flow, so we model the parser by an executable acceptance checker for the
grammar `json.loads` accepts by default (RFC 8259 plus `NaN`, `Infinity`
and `-Infinity`).  Each function returns the unconsumed remainder. -/

/-- Whitespace skipped by the JSON grammar. -/
def jsonWsChar (c : Char) : Bool := c = ' ' || c = '\t' || c = '\n' || c = '\r'

def jsonSkipWs (s : Str) : Str := s.dropWhile jsonWsChar

def isHexDigitCh (c : Char) : Bool :=
  c.isDigit || ('a' ≤ c && c ≤ 'f') || ('A' ≤ c && c ≤ 'F')

/-- Consume the rest of a JSON string (the opening quote already read). -/
def jsonStringRest : Str → Option Str
  | [] => none
  | '"' :: t => some t
  | '\\' :: [] => none
  | '\\' :: e :: t =>
    if e = '"' || e = '\\' || e = '/' || e = 'b' || e = 'f' || e = 'n' || e = 'r' || e = 't' then
      jsonStringRest t
    else if e = 'u' then
      match t with
      | h1 :: h2 :: h3 :: h4 :: t2 =>
        if isHexDigitCh h1 && isHexDigitCh h2 && isHexDigitCh h3 && isHexDigitCh h4 then
          jsonStringRest t2
        else none
      | _ => none
    else none
  | c :: t => if 32 ≤ c.toNat then jsonStringRest t else none

/-- Consume one or more digits. -/
def jsonDigitsRest : Str → Option Str
  | c :: t => if c.isDigit then some (t.dropWhile Char.isDigit) else none
  | [] => none

/-- Integer part: `0`, or a nonzero digit followed by digits. -/
def jsonIntRest : Str → Option Str
  | '0' :: t => some t
  | s => jsonDigitsRest s

/-- Optional fractional part. -/
def jsonFracRest : Str → Option Str
  | '.' :: t => jsonDigitsRest t
  | s => some s

/-- Optional exponent part. -/
def jsonExpRest : Str → Option Str
  | c :: t =>
    if c = 'e' || c = 'E' then
      match t with
      | s2 :: t2 => if s2 = '+' || s2 = '-' then jsonDigitsRest t2 else jsonDigitsRest (s2 :: t2)
      | [] => none
    else some (c :: t)
  | [] => some []

/-- Consume a JSON number. -/
def jsonNumberRest (s : Str) : Option Str :=
  let afterSign := match s with
    | '-' :: t => t
    | _ => s
  match jsonIntRest afterSign with
  | none => none
  | some r1 =>
    match jsonFracRest r1 with
    | none => none
    | some r2 => jsonExpRest r2

mutual

/-- Consume one JSON value (leading whitespace already skipped). -/
def jsonValueRest : Nat → Str → Option Str
  | 0, _ => none
  | f + 1, s =>
    match s with
    | [] => none
    | c :: t =>
      if c = '\x7b' then jsonMembersRest f (jsonSkipWs t)
      else if c = '[' then jsonElemsRest f (jsonSkipWs t)
      else if c = '"' then jsonStringRest t
      else if List.isPrefixOf "true".toList s then some (s.drop 4)
      else if List.isPrefixOf "false".toList s then some (s.drop 5)
      else if List.isPrefixOf "null".toList s then some (s.drop 4)
      else if List.isPrefixOf "NaN".toList s then some (s.drop 3)
      else if List.isPrefixOf "Infinity".toList s then some (s.drop 8)
      else if List.isPrefixOf "-Infinity".toList s then some (s.drop 9)
      else jsonNumberRest s

/-- Consume the members of an object (the opening brace already read). -/
def jsonMembersRest : Nat → Str → Option Str
  | 0, _ => none
  | f + 1, s =>
    match s with
    | [] => none
    | c :: t =>
      if c = '\x7d' then some t
      else if c = '"' then
        match jsonStringRest t with
        | none => none
        | some r1 =>
          match jsonSkipWs r1 with
          | ':' :: t2 =>
            match jsonValueRest f (jsonSkipWs t2) with
            | none => none
            | some r2 => jsonMoreMembersRest f (jsonSkipWs r2)
          | _ => none
      else none

/-- Consume `, "key": value` member continuations and the closing brace. -/
def jsonMoreMembersRest : Nat → Str → Option Str
  | 0, _ => none
  | f + 1, s =>
    match s with
    | [] => none
    | c :: t =>
      if c = '\x7d' then some t
      else if c = ',' then
        match jsonSkipWs t with
        | '"' :: t2 =>
          match jsonStringRest t2 with
          | none => none
          | some r1 =>
            match jsonSkipWs r1 with
            | ':' :: t3 =>
              match jsonValueRest f (jsonSkipWs t3) with
              | none => none
              | some r2 => jsonMoreMembersRest f (jsonSkipWs r2)
            | _ => none
        | _ => none
      else none

/-- Consume the elements of an array (the opening bracket already read). -/
def jsonElemsRest : Nat → Str → Option Str
  | 0, _ => none
  | f + 1, s =>
    match s with
    | ']' :: t => some t
    | _ =>
      match jsonValueRest f s with
      | none => none
      | some r => jsonMoreElemsRest f (jsonSkipWs r)

/-- Consume `, value` element continuations and the closing bracket. -/
def jsonMoreElemsRest : Nat → Str → Option Str
  | 0, _ => none
  | f + 1, s =>
    match s with
    | ']' :: t => some t
    | ',' :: t =>
      match jsonValueRest f (jsonSkipWs t) with
      | none => none
      | some r => jsonMoreElemsRest f (jsonSkipWs r)
    | _ => none

end

/-- Whether Python's `json.loads` accepts `s`: exactly one value surrounded by
whitespace.  The fuel bounds the recursion depth and is ample because every
recursive step consumes at least one input character. -/
def pyJsonValid (s : Str) : Bool :=
  match jsonValueRest (2 * s.length + 2) (jsonSkipWs s) with
  | some r => (jsonSkipWs r).isEmpty
  | none => false

/-! ### Retry loop and per-attempt error classification

Every endpoint wraps its body in the same inlined loop:
`for attempt in range(3)` with an `except requests.exceptions.HTTPError`
branch (429 and 503 return immediately, other statuses record
`last_error`) followed by a generic `except Exception` branch (messages
mentioning a rate limit return immediately, anything else records
`last_error`), and a final
`return last_error if last_error else jsonify(...), 500`. -/

/-- A Python exception escaping one attempt: either an
`requests.exceptions.HTTPError` carrying a status code, or any other
exception carrying its message `str(e)`. -/
inductive Failure where
  | httpError (status : Nat) (msg : Str)
  | exn (msg : Str)
deriving DecidableEq

/-- A `jsonify({"error": ...}), status` pair. -/
structure ErrResp where
  error : Str
  status : Nat
deriving DecidableEq

def rateLimitedResp : ErrResp :=
  ⟨"Rate limit exceeded. Please try again later.".toList, 429⟩

def serviceUnavailableResp : ErrResp :=
  ⟨"Service temporarily unavailable. Please try again later.".toList, 503⟩

/-- The phrases matched (case-insensitively) against generic exception text. -/
def rateLimitPhrases : List Str :=
  ["rate limit".toList, "quota".toList, "too many requests".toList, "429".toList]

def mentionsRateLimit (msg : Str) : Bool :=
  rateLimitPhrases.any (fun p => containsSub p (pyLower msg))

/-- The two `except` branches: the returned Bool is `true` when the handler
returns the response immediately (429/503 or rate-limit wording) and `false`
when it only records the response in `last_error` and lets the loop retry. -/
def classifyFailure : Failure → Bool × ErrResp
  | .httpError status m =>
    if status = 429 then (true, rateLimitedResp)
    else if status = 503 then (true, serviceUnavailableResp)
    else (false, ⟨"HTTP error: ".toList ++ m, 500⟩)
  | .exn m =>
    if mentionsRateLimit m then (true, rateLimitedResp) else (false, ⟨m, 500⟩)

/-- Rate-limit-class failures as the spec describes them: an HTTP 429, or an
exception whose message mentions a rate limit. -/
def isRateLimitFailure : Failure → Bool
  | .httpError s _ => s == 429
  | .exn m => mentionsRateLimit m

/-- Outcome of one attempt of an endpoint body. -/
inductive AttemptResult (α : Type) where
  | success (v : α)
  | failure (f : Failure)
deriving DecidableEq

/-- How the retry loop of an endpoint terminates. -/
inductive LoopResult (α : Type) where
  | success (v : α)
  | immediate (e : ErrResp)
  | exhausted (lastError : Option ErrResp)
deriving DecidableEq

/-- The retry loop: `remaining` attempts left, `attempt` the index of the next
one, `lastError` the recorded `last_error`.  Returns the loop outcome and the
number of times the attempt body was invoked. -/
def runLoop (op : Nat → AttemptResult α) :
    Nat → Nat → Option ErrResp → LoopResult α × Nat
  | _, 0, lastErr => (.exhausted lastErr, 0)
  | attempt, r + 1, _lastErr =>
    match op attempt with
    | .success v => (.success v, 1)
    | .failure f =>
      let c := classifyFailure f
      if c.1 then (.immediate c.2, 1)
      else
        let next := runLoop op (attempt + 1) r (some c.2)
        (next.1, next.2 + 1)

/-- `max_attempts = 3` in every endpoint. -/
def maxAttempts : Nat := 3

def runWithRetry (op : Nat → AttemptResult α) : LoopResult α × Nat :=
  runLoop op 0 maxAttempts none

/-- Python runtime values as far as the handlers' return statements build
them: tuples, `jsonify` responses and integers. -/
inductive PyRet where
  | pair (a b : PyRet)
  | jsonResp (error : Str)
  | num (n : Nat)
deriving DecidableEq

/-- The tuple `jsonify({"error": e.error}), e.status` stored in `last_error`. -/
def errRespRet (e : ErrResp) : PyRet := .pair (.jsonResp e.error) (.num e.status)

/-- The value of the handlers' final statement
`return last_error if last_error else jsonify({"error": "Unknown error occurred"}), 500`.
In Python the conditional expression binds tighter than the trailing comma,
so the statement returns the tuple `(cond, 500)`: when `last_error` is set
the value is `((jsonify(...), status), 500)`. -/
def exhaustedReturnValue (lastError : Option ErrResp) : PyRet :=
  match lastError with
  | some e => .pair (errRespRet e) (.num 500)
  | none => .pair (.jsonResp "Unknown error occurred".toList) (.num 500)

/-- Whether a returned value has the well-formed `(response_body, status)`
shape the transport layer can serve. -/
def isBodyStatusPair : PyRet → Bool
  | .pair (.jsonResp _) (.num _) => true
  | _ => false

/-! ### Output extraction, per endpoint -/

def jsonFence : Str := "```json".toList
def tickFence : Str := "```".toList
def htmlFence : Str := "```html".toList

def emptyOutputMsg : Str := "LLM output is empty.".toList

def jsonFenceErrBase : Str := "Response does not start with ```json```.".toList

/-- The `ValueError` message raised by `get_resume_json_endpoint` when the
fence is missing; the raw response is appended only when
`private_data_logging` is set. -/
def jsonFenceErrMsg (pdl : Bool) (out : Str) : Str :=
  jsonFenceErrBase ++ (if pdl then " Response: ".toList ++ out else [])

/-- `get_resume_json_endpoint`, the part of one attempt that follows the LLM
call: strip the response; if it does not start with ` ```json ` raise
`ValueError` (handled by the retry loop); otherwise remove the leading
` ```json ` marker and a trailing ` ``` ` marker, strip again, and return
the result — it is never parsed as JSON. -/
def getResumeJsonExtract (raw : Str) (pdl : Bool) : Except Str Str :=
  let llm_output := pyStrip raw
  if List.isPrefixOf jsonFence llm_output then
    .ok (pyStrip (removeSuf tickFence (removePre jsonFence llm_output)))
  else
    .error (jsonFenceErrMsg pdl llm_output)

def getResumeJsonAttempt (raw : Str) (pdl : Bool) : AttemptResult Str :=
  match getResumeJsonExtract raw pdl with
  | .ok s => .success s
  | .error m => .failure (.exn m)

/-- The `/get-resume-json` endpoint: retry loop over the per-attempt body,
`outputs i` being the LLM response text of attempt `i`. -/
def getResumeJsonResult (outputs : Nat → Str) (pdl : Bool) : LoopResult Str × Nat :=
  runWithRetry (fun i => getResumeJsonAttempt (outputs i) pdl)

def htmlWarnBase : Str := "Response does not start with ```html```.".toList

/-- The warning emitted by `analyze_job_posting_endpoint` for an unfenced
response; the raw response is appended only when `private_data_logging` is
set. -/
def htmlWarnMsg (pdl : Bool) (out : Str) : Str :=
  htmlWarnBase ++ (if pdl then " Response: ".toList ++ out else [])

/-- `analyze_job_posting_endpoint`, HTML-fence handling of one attempt:
empty output raises `ValueError`; a fenced response has the markers removed
and is stripped; an unfenced response produces a `warnings.warn` diagnostic
(returned here alongside the payload) and the stripped text is used as-is. -/
def analyzeExtractHtml (raw : Str) (pdl : Bool) : Except Str (Str × Option Str) :=
  let llm_output := pyStrip raw
  if llm_output = [] then .error emptyOutputMsg
  else if List.isPrefixOf htmlFence llm_output then
    .ok (pyStrip (removeSuf tickFence (removePre htmlFence llm_output)), none)
  else
    .ok (pyStrip llm_output, some (htmlWarnMsg pdl llm_output))

/-! ### Identifier splitting (`lines = cleaned_output.split('\n', 1)` ...) -/

def atSep : Str := " @ ".toList
def atChar : Str := "@".toList

def missingAtMsg : Str :=
  "Job analysis does not start with [job title] @ [company name].".toList

/-- `job_id`: the first line of the cleaned output, stripped, with one leading
`#` removed and the remainder stripped again. -/
def headerOf (cleaned : Str) : Str :=
  let j0 := pyStrip (splitFirst "\n".toList cleaned).1
  if List.isPrefixOf "#".toList j0 then pyStrip (j0.drop 1) else j0

/-- `job_analysis`: everything after the first newline, stripped; empty when
there is no second line. -/
def bodyOf (cleaned : Str) : Str :=
  match (splitFirst "\n".toList cleaned).2 with
  | some b => pyStrip b
  | none => []

structure JobIdentifier where
  job_id : Str
  company_name : Str
  job_analysis : Str
deriving DecidableEq

/-- The identifier-splitting block of `analyze_job_posting_endpoint`:
raise `ValueError` when `'@' not in job_id`, otherwise
`company_name = job_id.split(' @ ')[-1].strip()` and the body. -/
def splitJobDocument (cleaned : Str) : Except Str JobIdentifier :=
  let job_id := headerOf cleaned
  if containsSub atChar job_id then
    .ok ⟨job_id, pyStrip ((pySplit atSep job_id).getLastD []), bodyOf cleaned⟩
  else
    .error missingAtMsg

/-- All positions at which `sep` occurs as a substring of `h`. -/
def sepMatchPositions (sep h : Str) : List Nat :=
  (List.range (h.length + 1)).filter (fun p => List.isPrefixOf sep (h.drop p))

/-- The substring of `h` after the LAST occurrence of `sep` (the occurrence
with the greatest starting position), when `sep` occurs at all. -/
def afterLastOcc (sep h : Str) : Option Str :=
  (sepMatchPositions sep h).getLast?.map (fun p => h.drop (p + sep.length))

/-- Follows the claim's words, for comparison with the code: the company name
as "the trimmed substring of the header after the last occurrence of
`" @ "`". -/
def claimedCompanyName (header : Str) : Option Str :=
  (afterLastOcc atSep header).map pyStrip

/-- One attempt of `/analyze-job-posting` after the LLM call: HTML-fence
extraction, then identifier splitting; the optional warning diagnostic is
carried with the success value. -/
def analyzeAttempt (raw : Str) (pdl : Bool) : AttemptResult (JobIdentifier × Option Str) :=
  match analyzeExtractHtml raw pdl with
  | .error m => .failure (.exn m)
  | .ok (cleaned, w) =>
    match splitJobDocument cleaned with
    | .error m => .failure (.exn m)
    | .ok jid => .success (jid, w)

/-- The `/analyze-job-posting` endpoint: retry loop over the attempts. -/
def analyzeJobPostingResult (outputs : Nat → Str) (pdl : Bool) :
    LoopResult (JobIdentifier × Option Str) × Nat :=
  runWithRetry (fun i => analyzeAttempt (outputs i) pdl)

/-! ### Resume tailoring -/

def tailorWarnBase : Str :=
  "Response does not start with ```json``` or ``````.".toList

/-- The warning emitted by `tailor_resume_endpoint` for an unfenced response;
the raw response is appended only when `private_data_logging` is set. -/
def tailorWarnMsg (pdl : Bool) (out : Str) : Str :=
  tailorWarnBase ++ (if pdl then " Response: ".toList ++ out else [])

/-- `tailor_resume_endpoint`, fence handling of one attempt: empty output
raises `ValueError`; a response starting with ` ```json ` (or, failing that,
with ` ``` `) is cut after the first such marker and before the last ` ``` `
marker and stripped; an unfenced response produces a `warnings.warn`
diagnostic and the stripped text is used as-is. -/
def tailorExtract (raw : Str) (pdl : Bool) : Except Str (Str × Option Str) :=
  let json_string := pyStrip raw
  if json_string = [] then .error emptyOutputMsg
  else if List.isPrefixOf jsonFence json_string then
    .ok (pyStrip (rsplitHead tickFence (splitTailAfter jsonFence json_string)), none)
  else if List.isPrefixOf tickFence json_string then
    .ok (pyStrip (rsplitHead tickFence (splitTailAfter tickFence json_string)), none)
  else
    .ok (pyStrip json_string, some (tailorWarnMsg pdl json_string))

/-- The fixed prefix of the `"error"` field of the invalid-JSON response
`jsonify({"error": f"Invalid JSON response from LLM: {e}", "llm_raw_response": json_string}), 500`.
CPython's positional detail (`str(e)`) is elided; no theorem depends on it. -/
def invalidJsonErrPre : Str := "Invalid JSON response from LLM: ".toList

/-- How the LLM half of one `/tailor-resume` attempt ends. -/
inductive TailorLlmStep where
  /-- an exception reached the retry loop's handlers -/
  | extractError (msg : Str)
  /-- the direct `return jsonify({"error": ..., "llm_raw_response": json_string}), 500`:
  the loop is exited at once and this payload goes to the caller -/
  | invalidJsonReturn (error : Str) (llm_raw_response : Str)
  /-- `json.loads` succeeded; rendering follows -/
  | proceed (json_string : Str) (warning : Option Str)
deriving DecidableEq

/-- The LLM half of one `/tailor-resume` attempt: fence handling, then the
`json.loads` structural check. -/
def tailorLlmStep (raw : Str) (pdl : Bool) : TailorLlmStep :=
  match tailorExtract raw pdl with
  | .error m => .extractError m
  | .ok (json_string, w) =>
    if pyJsonValid json_string then .proceed json_string w
    else .invalidJsonReturn invalidJsonErrPre json_string

/-! ### Document render adapter

The external renderer and the filesystem are capabilities; an environment
records whether each `subprocess.run(..., check=True)` call raises
`CalledProcessError` (carrying its message) and whether the PDF file exists
at the requested path after the render call.  The YAML serialization and
template splicing only shape file contents handed to the external tool, not
the adapter's control flow, and are left inside the capability boundary. -/

structure RenderEnv where
  /-- `rendercv new` under `check=True` -/
  scaffoldResult : Except Str Unit
  /-- `rendercv render` under `check=True` -/
  renderResult : Except Str Unit
  /-- `os.path.exists(final_pdf_path)` after the render call -/
  pdfExists : Bool
  /-- the bytes read from the PDF file when present -/
  pdfBytes : List Nat
deriving DecidableEq

def nameInvalidMsg : Str := "Resume 'cv.name' field is missing or invalid.".toList

def pdfMissingMsg : Str :=
  "Failed to generate PDF file despite successful command execution.".toList

/-- `full_name = tailored_resume_json["cv"]["name"].lower().replace(" ", "_")` -/
def fullNameOf (cvName : Str) : Str :=
  (pyLower cvName).map (fun c => if c = ' ' then '_' else c)

/-- The rendering half of one `/tailor-resume` attempt: name check, scaffold
call, render call, then the existence check on the expected PDF path; a
zero-exit render with no file raises the "Failed to generate PDF file"
exception instead of returning the bytes. -/
def renderAdapter (env : RenderEnv) (cvName : Str) : Except Str (List Nat) :=
  let full_name := fullNameOf cvName
  if full_name = [] then .error nameInvalidMsg
  else
    match env.scaffoldResult with
    | .error e => .error e
    | .ok _ =>
      match env.renderResult with
      | .error e => .error e
      | .ok _ =>
        if env.pdfExists then .ok env.pdfBytes else .error pdfMissingMsg

/-! ## Helper lemmas -/

theorem dropWhile_head_not (p : Char → Bool) (l : Str) :
    ∀ c t, l.dropWhile p = c :: t → p c = false := by
  induction l with
  | nil => intro c t h; simp [List.dropWhile] at h
  | cons a l ih =>
    intro c t h
    rw [List.dropWhile_cons] at h
    by_cases ha : p a = true
    · rw [if_pos ha] at h; exact ih c t h
    · rw [if_neg ha] at h
      cases h
      simpa using ha

theorem dropWhile_idem (p : Char → Bool) (l : Str) :
    (l.dropWhile p).dropWhile p = l.dropWhile p := by
  cases hd : l.dropWhile p with
  | nil => simp
  | cons c t =>
    rw [List.dropWhile_cons, dropWhile_head_not p l c t hd]
    simp

/-- Python's `strip` is idempotent; the code strips some strings twice. -/
theorem pyStrip_idem (s : Str) : pyStrip (pyStrip s) = pyStrip s := by
  have h1 : (pyStrip s).dropWhile isPyWs = pyStrip s := by
    cases hd : pyStrip s with
    | nil => simp
    | cons c t =>
      have hpre : c :: t <+: s.dropWhile isPyWs := by
        rw [← hd]
        show ((s.dropWhile isPyWs).reverse.dropWhile isPyWs).reverse <+: s.dropWhile isPyWs
        have hsuf := List.dropWhile_suffix (l := (s.dropWhile isPyWs).reverse) (p := isPyWs)
        have := List.reverse_prefix.mpr hsuf
        simpa using this
      rcases hpre with ⟨r, hr⟩
      have hc : isPyWs c = false := dropWhile_head_not _ _ c (t ++ r) (by rw [← hr]; rfl)
      rw [List.dropWhile_cons, hc]
      simp
  show (((pyStrip s).dropWhile isPyWs).reverse.dropWhile isPyWs).reverse = pyStrip s
  rw [h1]
  show ((((s.dropWhile isPyWs).reverse.dropWhile isPyWs).reverse).reverse.dropWhile isPyWs).reverse = _
  rw [List.reverse_reverse, dropWhile_idem]
  rfl

theorem containsSub_correct (n : Str) : ∀ h : Str, containsSub n h = true ↔ n <:+: h := by
  intro h
  induction h with
  | nil =>
    simp only [containsSub, List.infix_nil, List.isEmpty_iff]
  | cons c t ih =>
    simp only [containsSub, Bool.or_eq_true, List.isPrefixOf_iff_prefix, ih,
      List.infix_cons_iff]

theorem containsSub_nil_of_ne (n : Str) (hn : n ≠ []) : containsSub n [] = false := by
  simp [containsSub, List.isEmpty_iff, hn]

/-- The code's bare `'@' in job_id` test passes whenever the full `" @ "`
separator occurs. -/
theorem containsSub_atChar_of_atSep (h : Str) (hs : containsSub atSep h = true) :
    containsSub atChar h = true := by
  have hinf : atSep <:+: h := (containsSub_correct _ _).mp hs
  have hmem : '@' ∈ h := List.IsInfix.mem (by decide) hinf
  rcases List.append_of_mem hmem with ⟨s, t, ht⟩
  refine (containsSub_correct _ _).mpr ?_
  have ha : atChar = ['@'] := by decide
  rw [ha]
  exact ⟨s, t, by simp [ht]⟩

theorem pySplitF_ne_nil (sep : Str) : ∀ f s, pySplitF sep f s ≠ [] := by
  intro f s
  match f, s with
  | 0, s => simp [pySplitF]
  | _ + 1, [] => simp [pySplitF]
  | f + 1, c :: t =>
    simp only [pySplitF]
    split
    · simp
    · split <;> simp

theorem intercalate_single (sep a : Str) : List.intercalate sep [a] = a := by
  simp [List.intercalate]

theorem intercalate_cons_cons (sep a b : Str) (l : List Str) :
    List.intercalate sep (a :: b :: l) = a ++ sep ++ List.intercalate sep (b :: l) := by
  simp [List.intercalate]

theorem intercalate_cons_head (sep p : Str) (c : Char) (l : List Str) :
    List.intercalate sep ((c :: p) :: l) = c :: List.intercalate sep (p :: l) := by
  cases l with
  | nil => rw [intercalate_single, intercalate_single]
  | cons q qs => rw [intercalate_cons_cons, intercalate_cons_cons]; rfl

theorem intercalate_append_last (sep b : Str) :
    ∀ ps : List Str, ps ≠ [] →
      List.intercalate sep (ps ++ [b]) = List.intercalate sep ps ++ sep ++ b := by
  intro ps
  induction ps with
  | nil => intro hc; exact absurd rfl hc
  | cons a qs ih =>
    intro _
    cases qs with
    | nil =>
      show List.intercalate sep [a, b] = List.intercalate sep [a] ++ sep ++ b
      rw [intercalate_cons_cons, intercalate_single, intercalate_single]
    | cons q qs2 =>
      show List.intercalate sep (a :: ((q :: qs2) ++ [b])) = _
      have hcons : (q :: qs2) ++ [b] = q :: (qs2 ++ [b]) := rfl
      rw [hcons, intercalate_cons_cons, ← hcons, ih (by simp), intercalate_cons_cons]
      simp [List.append_assoc]

theorem prefix_append_drop (sep s : Str) (h : List.isPrefixOf sep s = true) :
    sep ++ s.drop sep.length = s := by
  rcases List.isPrefixOf_iff_prefix.mp h with ⟨t, ht⟩
  rw [← ht, List.drop_left]

theorem pySplitF_join (sep : Str) :
    ∀ f s, s.length < f → List.intercalate sep (pySplitF sep f s) = s := by
  intro f
  induction f with
  | zero => intro s hs; omega
  | succ f ih =>
    intro s hs
    match s with
    | [] => simp [pySplitF, intercalate_single]
    | c :: t =>
      simp only [pySplitF]
      have hlt : t.length < f := by
        simp only [List.length_cons] at hs
        omega
      by_cases hb : (!sep.isEmpty && List.isPrefixOf sep (c :: t)) = true
      · rw [if_pos hb]
        rw [Bool.and_eq_true] at hb
        obtain ⟨h1, h2⟩ := hb
        have hsep1 : 1 ≤ sep.length := by
          cases sep with
          | nil => simp at h1
          | cons a as => simp
        have hlt2 : ((c :: t).drop sep.length).length < f := by
          simp only [List.length_drop, List.length_cons]
          simp only [List.length_cons] at hs
          omega
        cases hq : pySplitF sep f ((c :: t).drop sep.length) with
        | nil => exact absurd hq (pySplitF_ne_nil _ _ _)
        | cons q qs =>
          rw [intercalate_cons_cons]
          rw [List.nil_append]
          rw [← hq]
          rw [ih _ hlt2]
          exact prefix_append_drop _ _ h2
      · rw [if_neg hb]
        cases hq : pySplitF sep f t with
        | nil => exact absurd hq (pySplitF_ne_nil _ _ _)
        | cons p ps =>
          simp only [hq]
          rw [intercalate_cons_head, ← hq, ih _ hlt]

theorem pySplitF_eq_singleton (sep : Str) :
    ∀ f s p, s.length < f → pySplitF sep f s = [p] → p = s := by
  intro f
  induction f with
  | zero => intro s p hs; omega
  | succ f ih =>
    intro s p hs hp
    match s with
    | [] =>
      simp only [pySplitF] at hp
      simp at hp
      exact hp
    | c :: t =>
      simp only [pySplitF] at hp
      have hlt : t.length < f := by
        simp only [List.length_cons] at hs
        omega
      by_cases hb : (!sep.isEmpty && List.isPrefixOf sep (c :: t)) = true
      · rw [if_pos hb] at hp
        cases hq : pySplitF sep f ((c :: t).drop sep.length) with
        | nil => exact absurd hq (pySplitF_ne_nil _ _ _)
        | cons q qs => rw [hq] at hp; simp at hp
      · rw [if_neg hb] at hp
        cases hq : pySplitF sep f t with
        | nil => exact absurd hq (pySplitF_ne_nil _ _ _)
        | cons q qs =>
          simp only [hq] at hp
          cases qs with
          | nil =>
            injection hp with h1 _
            rw [← h1, ih _ _ hlt hq]
          | cons q2 qs2 => simp at hp

theorem getLastD_cons_ne_nil (l : List Str) (h : l ≠ []) (a b : Str) :
    l.getLastD a = l.getLastD b := by
  cases l with
  | nil => exact absurd rfl h
  | cons q qs => rw [List.getLastD_cons, List.getLastD_cons]

theorem pySplitF_last_not_contains (sep : Str) (hsep : sep ≠ []) :
    ∀ f s, s.length < f → containsSub sep ((pySplitF sep f s).getLastD []) = false := by
  intro f
  induction f with
  | zero => intro s hs; omega
  | succ f ih =>
    intro s hs
    match s with
    | [] =>
      simp only [pySplitF, List.getLastD_cons, List.getLastD_nil]
      exact containsSub_nil_of_ne _ hsep
    | c :: t =>
      simp only [pySplitF]
      have hlt : t.length < f := by
        simp only [List.length_cons] at hs
        omega
      have hsep1 : 1 ≤ sep.length := by
        cases sep with
        | nil => exact absurd rfl hsep
        | cons a as => simp
      by_cases hb : (!sep.isEmpty && List.isPrefixOf sep (c :: t)) = true
      · rw [if_pos hb]
        have hlt2 : ((c :: t).drop sep.length).length < f := by
          simp only [List.length_drop, List.length_cons]
          simp only [List.length_cons] at hs
          omega
        rw [List.getLastD_cons]
        exact ih _ hlt2
      · rw [if_neg hb]
        have hpre : List.isPrefixOf sep (c :: t) = false := by
          have h1 : (!sep.isEmpty) = true := by
            cases sep with
            | nil => exact absurd rfl hsep
            | cons a as => simp
          cases hp : List.isPrefixOf sep (c :: t) with
          | false => rfl
          | true =>
            rw [Bool.and_eq_true] at hb
            exact absurd ⟨h1, hp⟩ hb
        cases hq : pySplitF sep f t with
        | nil => exact absurd hq (pySplitF_ne_nil _ _ _)
        | cons p ps =>
          simp only [hq]
          cases ps with
          | nil =>
            have hpt : p = t := pySplitF_eq_singleton _ _ _ _ hlt hq
            have hrec := ih _ hlt
            rw [hq, List.getLastD_cons, List.getLastD_nil] at hrec
            rw [List.getLastD_cons, List.getLastD_nil]
            subst hpt
            simp only [containsSub, Bool.or_eq_true]
            rw [hpre, hrec]
            simp
          | cons p2 ps2 =>
            have hrec := ih _ hlt
            rw [hq] at hrec
            rw [List.getLastD_cons]
            rw [List.getLastD_cons] at hrec
            rw [getLastD_cons_ne_nil (p2 :: ps2) (by simp) (c :: p) p]
            exact hrec

theorem pySplitF_length_two (sep : Str) (hsep : sep ≠ []) :
    ∀ f s, s.length < f → containsSub sep s = true → 2 ≤ (pySplitF sep f s).length := by
  intro f
  induction f with
  | zero => intro s hs; omega
  | succ f ih =>
    intro s hs hc
    match s with
    | [] =>
      rw [containsSub_nil_of_ne _ hsep] at hc
      exact absurd hc (by simp)
    | c :: t =>
      simp only [pySplitF]
      have hlt : t.length < f := by
        simp only [List.length_cons] at hs
        omega
      by_cases hb : (!sep.isEmpty && List.isPrefixOf sep (c :: t)) = true
      · rw [if_pos hb]
        cases hq : pySplitF sep f ((c :: t).drop sep.length) with
        | nil => exact absurd hq (pySplitF_ne_nil _ _ _)
        | cons q qs =>
          show 2 ≤ (([] : Str) :: q :: qs).length
          simp
      · rw [if_neg hb]
        have hpre : List.isPrefixOf sep (c :: t) = false := by
          have h1 : (!sep.isEmpty) = true := by
            cases sep with
            | nil => exact absurd rfl hsep
            | cons a as => simp
          cases hp : List.isPrefixOf sep (c :: t) with
          | false => rfl
          | true =>
            rw [Bool.and_eq_true] at hb
            exact absurd ⟨h1, hp⟩ hb
        have hct : containsSub sep t = true := by
          simp only [containsSub, hpre, Bool.false_or] at hc
          exact hc
        have hlen := ih t hlt hct
        cases hq : pySplitF sep f t with
        | nil => exact absurd hq (pySplitF_ne_nil _ _ _)
        | cons p ps =>
          rw [hq] at hlen
          show 2 ≤ ((c :: p) :: ps).length
          simp only [List.length_cons] at hlen ⊢
          omega

/-- Decompose a nonempty list into its leading part and its last element. -/
theorem dropLast_append_getLastD : ∀ l : List Str, l ≠ [] → l.dropLast ++ [l.getLastD []] = l := by
  intro l
  induction l with
  | nil => intro h; exact absurd rfl h
  | cons a qs ih =>
    intro _
    cases qs with
    | nil => rfl
    | cons q qs2 =>
      have hrec := ih (by simp)
      show a :: ((q :: qs2).dropLast ++ [(a :: q :: qs2).getLastD []]) = a :: q :: qs2
      rw [List.getLastD_cons, getLastD_cons_ne_nil (q :: qs2) (by simp) a [], hrec]

/-! ## Claim theorems -/

/-- C1 (counterexample): the tailoring extraction step does not fail on the
unfenced response `"hello"`: it returns the trimmed text itself as the
payload, together with only a warning — so content derived from the unfenced
text is returned, contrary to the claim. -/
theorem C1_counterexample :
    List.isPrefixOf jsonFence (pyStrip "hello".toList) = false ∧
    List.isPrefixOf tickFence (pyStrip "hello".toList) = false ∧
    tailorExtract "hello".toList false = .ok ("hello".toList, some tailorWarnBase) := by
  decide

/-- C1 (amended): for resume extraction, an unfenced response does fail with
the `UnexpectedFormat`-class `ValueError` and returns nothing; for resume
tailoring, a nonempty unfenced response does NOT fail — it yields a warning
diagnostic and the trimmed raw text is passed on as the payload. -/
theorem C1_amended (raw : Str) (pdl : Bool) :
    (List.isPrefixOf jsonFence (pyStrip raw) = false →
      getResumeJsonExtract raw pdl = .error (jsonFenceErrMsg pdl (pyStrip raw))) ∧
    (pyStrip raw ≠ [] →
      List.isPrefixOf jsonFence (pyStrip raw) = false →
      List.isPrefixOf tickFence (pyStrip raw) = false →
      tailorExtract raw pdl = .ok (pyStrip raw, some (tailorWarnMsg pdl (pyStrip raw)))) := by
  constructor
  · intro h
    simp [getResumeJsonExtract, h]
  · intro h1 h2 h3
    simp [tailorExtract, h1, h2, h3, pyStrip_idem]

/-- C1 (witness): the amended statement evaluated on the unfenced response
`"hello"` with the privacy flag unset. -/
theorem C1_amended_witness :
    getResumeJsonExtract "hello".toList false = .error (jsonFenceErrMsg false (pyStrip "hello".toList)) ∧
    tailorExtract "hello".toList false = .ok (pyStrip "hello".toList, some (tailorWarnMsg false (pyStrip "hello".toList))) :=
  ⟨(C1_amended _ _).1 (by decide), (C1_amended _ _).2 (by decide) (by decide) (by decide)⟩

/-- C2 (counterexample): when every LLM response of a job-analysis request is
`"No separator here\nBody"`, the missing-"@" `ValueError` is NOT surfaced
after the first attempt: the loop re-invokes the attempt three times before
exhausting. -/
theorem C2_counterexample :
    analyzeJobPostingResult (fun _ => "No separator here\nBody".toList) false
      = (.exhausted (some ⟨missingAtMsg, 500⟩), 3) ∧ (3 : Nat) ≠ 1 := by
  decide

/-- C2 (amended): the missing-"@" failure is classified as a generic
retryable error, not a fatal one: the retry loop re-invokes the LLM call on
every attempt and only after all three attempts does it exhaust with that
error as the last recorded classified error. -/
theorem C2_amended (outputs : Nat → Str) (pdl : Bool)
    (h : ∀ i, analyzeAttempt (outputs i) pdl = .failure (.exn missingAtMsg)) :
    analyzeJobPostingResult outputs pdl = (.exhausted (some ⟨missingAtMsg, 500⟩), 3) := by
  have hc : classifyFailure (.exn missingAtMsg) = (false, ⟨missingAtMsg, 500⟩) := by decide
  simp [analyzeJobPostingResult, runWithRetry, maxAttempts, runLoop, h 0, h 1, h 2, hc]

/-- C2 (witness): the amended statement evaluated on a constant LLM response
without any "@". -/
theorem C2_amended_witness :
    analyzeJobPostingResult (fun _ => "Nothing here\nBody".toList) false
      = (.exhausted (some ⟨missingAtMsg, 500⟩), 3) :=
  C2_amended _ _ (fun _ => by decide)

/-- C3 (counterexample): with the privacy flag unset, two runs of the
tailoring LLM step on different raw outputs produce different error payloads,
each carrying the raw LLM text verbatim in `llm_raw_response` — the error
detail is not independent of the raw text. -/
theorem C3_counterexample :
    tailorLlmStep "raw llm output one".toList false
      = .invalidJsonReturn invalidJsonErrPre "raw llm output one".toList ∧
    tailorLlmStep "raw llm output two".toList false
      = .invalidJsonReturn invalidJsonErrPre "raw llm output two".toList ∧
    ("raw llm output one".toList : Str) ≠ "raw llm output two".toList ∧
    (TailorLlmStep.invalidJsonReturn invalidJsonErrPre "raw llm output one".toList)
      ≠ .invalidJsonReturn invalidJsonErrPre "raw llm output two".toList := by
  decide

/-- C3 (amended): with the privacy flag unset, the fence-mismatch error of
resume extraction and the warnings of job analysis and tailoring are fixed
literals independent of the raw LLM text; but the invalid-JSON error response
of the tailoring operation always carries the raw (fence-stripped) LLM text
in its `llm_raw_response` field, flag or no flag. -/
theorem C3_amended :
    (∀ raw, List.isPrefixOf jsonFence (pyStrip raw) = false →
      getResumeJsonExtract raw false = .error jsonFenceErrBase) ∧
    (∀ out, htmlWarnMsg false out = htmlWarnBase) ∧
    (∀ out, tailorWarnMsg false out = tailorWarnBase) ∧
    (∀ raw, pyStrip raw ≠ [] →
      List.isPrefixOf jsonFence (pyStrip raw) = false →
      List.isPrefixOf tickFence (pyStrip raw) = false →
      pyJsonValid (pyStrip raw) = false →
      tailorLlmStep raw false = .invalidJsonReturn invalidJsonErrPre (pyStrip raw)) := by
  refine ⟨fun raw h => ?_, fun out => ?_, fun out => ?_, fun raw h1 h2 h3 h4 => ?_⟩
  · simp [getResumeJsonExtract, jsonFenceErrMsg, h]
  · simp [htmlWarnMsg]
  · simp [tailorWarnMsg]
  · simp [tailorLlmStep, tailorExtract, h1, h2, h3, pyStrip_idem, h4]

/-- C3 (witness): the amended statement evaluated on concrete inputs with the
privacy flag unset. -/
theorem C3_amended_witness :
    getResumeJsonExtract "plain text resume".toList false = .error jsonFenceErrBase ∧
    htmlWarnMsg false "name and phone number".toList = htmlWarnBase ∧
    tailorWarnMsg false "name and phone number".toList = tailorWarnBase ∧
    tailorLlmStep "not a json document".toList false
      = .invalidJsonReturn invalidJsonErrPre (pyStrip "not a json document".toList) :=
  ⟨C3_amended.1 _ (by decide), C3_amended.2.1 _, C3_amended.2.2.1 _,
    C3_amended.2.2.2 _ (by decide) (by decide) (by decide) (by decide)⟩

/-- C4 (confirmed): an attempt failing with a rate-limit-class failure (HTTP
429 or a message mentioning a rate limit) makes the operation return the
"Rate limit exceeded" response with status 429 immediately, after exactly one
invocation of the attempt body. -/
theorem C4_rate_limited_short_circuits {α : Type} (op : Nat → AttemptResult α) (f : Failure)
    (hop : op 0 = .failure f) (hrl : isRateLimitFailure f = true) :
    runWithRetry op = (.immediate rateLimitedResp, 1) := by
  have hc : classifyFailure f = (true, rateLimitedResp) := by
    cases f with
    | httpError s m =>
      have hs : s = 429 := by simpa [isRateLimitFailure] using hrl
      subst hs
      simp [classifyFailure]
    | exn m =>
      have hm : mentionsRateLimit m = true := by simpa [isRateLimitFailure] using hrl
      simp [classifyFailure, hm]
  simp [runWithRetry, maxAttempts, runLoop, hop, hc]

/-- C4 (witness): a run whose first attempt raises an HTTP 429. -/
theorem C4_witness :
    runWithRetry (fun _ => AttemptResult.failure (α := Str) (.httpError 429 [])) =
      (.immediate rateLimitedResp, 1) :=
  C4_rate_limited_short_circuits _ _ rfl (by decide)

/-- C5 (counterexample): the header `"Dev@Acme"` contains no `" @ "`
separator, yet the splitter does not fail — the code only tests for a bare
`'@'` character — and it produces a `JobIdentifier` whose company name is the
whole header. -/
theorem C5_counterexample :
    containsSub atSep (headerOf "Dev@Acme\nBody".toList) = false ∧
    splitJobDocument "Dev@Acme\nBody".toList
      = .ok ⟨"Dev@Acme".toList, "Dev@Acme".toList, "Body".toList⟩ := by
  decide

/-- C5 (amended): the splitter fails with the missing-identifier error
exactly when the processed header contains no `'@'` CHARACTER; a header with
a bare `'@'` but no `" @ "` separator is accepted. -/
theorem C5_amended_no_at_fails (doc : Str)
    (h : containsSub atChar (headerOf doc) = false) :
    splitJobDocument doc = .error missingAtMsg := by
  simp [splitJobDocument, h]

/-- C5 (witness): the amended statement evaluated on a document with no "@"
at all. -/
theorem C5_amended_witness :
    splitJobDocument "No separator here\nBody".toList = .error missingAtMsg :=
  C5_amended_no_at_fails _ (by decide)

/-- C7 (counterexample): the empty LLM response lacks the HTML fence, yet
extraction does fail — the empty-output check raises before the graceful
fallback is reached — contrary to "never fails ... including the empty
string". -/
theorem C7_counterexample :
    List.isPrefixOf htmlFence (pyStrip "".toList) = false ∧
    analyzeExtractHtml "".toList false = .error emptyOutputMsg := by
  decide

/-- C7 (amended): for every response whose trimmed text is nonempty and lacks
the HTML fence, extraction never fails: it emits the warning diagnostic and
returns the full trimmed input unchanged. -/
theorem C7_amended_nonempty_graceful (raw : Str) (pdl : Bool)
    (hne : pyStrip raw ≠ [])
    (hf : List.isPrefixOf htmlFence (pyStrip raw) = false) :
    analyzeExtractHtml raw pdl = .ok (pyStrip raw, some (htmlWarnMsg pdl (pyStrip raw))) := by
  simp [analyzeExtractHtml, hne, hf, pyStrip_idem]

/-- C7 (witness): the amended statement evaluated on an unfenced nonempty
response. -/
theorem C7_amended_witness :
    analyzeExtractHtml "Title @ Acme\nanalysis".toList false
      = .ok ("Title @ Acme\nanalysis".toList, some htmlWarnBase) := by
  rw [C7_amended_nonempty_graceful _ _ (by decide) (by decide)]
  decide

/-- C8 (code bug): when all three attempts raise a generic retryable
exception, the attempt body is indeed invoked exactly three times and the
last classified error is recorded — but the final statement
`return last_error if last_error else jsonify(...), 500` evaluates to the
nested tuple `((jsonify(...), 500), 500)` (the conditional expression binds
before the trailing comma), which is not a well-formed `(body, status)`
response, so the classified error response is not what the handler returns. -/
theorem C8_exhaustion_return_malformed :
    runWithRetry (fun _ => AttemptResult.failure (α := Str) (.exn "generic failure".toList))
      = (.exhausted (some ⟨"generic failure".toList, 500⟩), 3) ∧
    exhaustedReturnValue (some ⟨"generic failure".toList, 500⟩)
      = .pair (.pair (.jsonResp "generic failure".toList) (.num 500)) (.num 500) ∧
    isBodyStatusPair (exhaustedReturnValue (some ⟨"generic failure".toList, 500⟩)) = false := by
  decide

/-- C9 (confirmed): if the render command exits successfully but the expected
PDF file is absent at the requested path, the render adapter fails with the
"Failed to generate PDF file" error instead of returning success. -/
theorem C9_missing_pdf_not_success (env : RenderEnv) (cvName : Str)
    (hname : fullNameOf cvName ≠ [])
    (hscaffold : env.scaffoldResult = .ok ())
    (hrender : env.renderResult = .ok ())
    (hpdf : env.pdfExists = false) :
    renderAdapter env cvName = .error pdfMissingMsg := by
  simp [renderAdapter, hname, hscaffold, hrender, hpdf]

/-- C9 (witness): a zero-exit render with no PDF file on disk. -/
theorem C9_witness :
    renderAdapter ⟨.ok (), .ok (), false, []⟩ "Ada Lovelace".toList = .error pdfMissingMsg :=
  C9_missing_pdf_not_success _ _ (by decide) rfl rfl rfl

/-- C10 (confirmed): whenever the first LLM response starts with the
` ```json ` fence, `/get-resume-json` succeeds after one attempt and returns
the fence interior (markers stripped, then trimmed) verbatim — no JSON
parsing or validation is applied to it at any point. -/
theorem C10_fenced_output_returned_unparsed (outputs : Nat → Str) (pdl : Bool)
    (hf : List.isPrefixOf jsonFence (pyStrip (outputs 0)) = true) :
    getResumeJsonResult outputs pdl =
      (.success (pyStrip (removeSuf tickFence (removePre jsonFence (pyStrip (outputs 0))))), 1) := by
  have ha : getResumeJsonAttempt (outputs 0) pdl =
      .success (pyStrip (removeSuf tickFence (removePre jsonFence (pyStrip (outputs 0))))) := by
    simp [getResumeJsonAttempt, getResumeJsonExtract, hf]
  simp [getResumeJsonResult, runWithRetry, maxAttempts, runLoop, ha]

/-- C10 (witness): a fenced response whose interior is not well-formed JSON
is still returned to the caller, unparsed. -/
theorem C10_witness :
    getResumeJsonResult (fun _ => "```json this is not valid json ```".toList) false
      = (.success "this is not valid json".toList, 1) ∧
    pyJsonValid "this is not valid json".toList = false := by
  constructor
  · rw [C10_fenced_output_returned_unparsed _ _ (by decide)]
    decide
  · decide

/-- C6 (counterexample): on the header `"a @ @ x"`, whose separator
occurrences overlap, the code returns company `"@ x"` — the final segment of
Python's non-overlapping left-to-right split — while the trimmed substring
after the LAST occurrence of `" @ "` is `"x"`. -/
theorem C6_counterexample :
    headerOf "a @ @ x\nBody".toList = "a @ @ x".toList ∧
    splitJobDocument "a @ @ x\nBody".toList
      = .ok ⟨"a @ @ x".toList, "@ x".toList, "Body".toList⟩ ∧
    claimedCompanyName "a @ @ x".toList = some "x".toList ∧
    ("@ x".toList : Str) ≠ "x".toList := by
  decide

/-- C6 (amended): when the processed header contains a `" @ "` separator the
splitter succeeds, the body is everything after the first newline (trimmed;
empty without a second line), and `company_name` is the trimmed final segment
of the header under Python's left-to-right non-overlapping split on `" @ "`:
the header decomposes as `a ++ " @ " ++ b` with `b` containing no further
separator and `company_name = strip(b)`.  (This agrees with "the substring
after the last occurrence" whenever occurrences do not overlap.) -/
theorem C6_amended (doc : Str) (hsep : containsSub atSep (headerOf doc) = true) :
    ∃ a b, headerOf doc = a ++ atSep ++ b ∧ containsSub atSep b = false ∧
      splitJobDocument doc = .ok ⟨headerOf doc, pyStrip b, bodyOf doc⟩ := by
  have hsne : (atSep : Str) ≠ [] := by decide
  set h := headerOf doc with hh
  have hflt : h.length < h.length + 1 := Nat.lt_succ_self _
  have hjoin : List.intercalate atSep (pySplit atSep h) = h :=
    pySplitF_join atSep _ _ hflt
  have hlast : containsSub atSep ((pySplit atSep h).getLastD []) = false :=
    pySplitF_last_not_contains atSep hsne _ _ hflt
  have h2 : 2 ≤ (pySplit atSep h).length :=
    pySplitF_length_two atSep hsne _ _ hflt hsep
  have hne : pySplit atSep h ≠ [] := pySplitF_ne_nil _ _ _
  have hdec : (pySplit atSep h).dropLast ++ [(pySplit atSep h).getLastD []]
      = pySplit atSep h :=
    dropLast_append_getLastD _ hne
  have hdl : (pySplit atSep h).dropLast ≠ [] := by
    intro hcon
    have hlen := List.length_dropLast (pySplit atSep h)
    rw [hcon] at hlen
    simp at hlen
    omega
  refine ⟨List.intercalate atSep (pySplit atSep h).dropLast,
    (pySplit atSep h).getLastD [], ?_, hlast, ?_⟩
  · conv_lhs => rw [← hjoin, ← hdec]
    exact intercalate_append_last atSep _ _ hdl
  · have hat : containsSub atChar h = true := containsSub_atChar_of_atSep h hsep
    simp [splitJobDocument, ← hh, hat]

/-- C6 (witness): the amended statement evaluated on the multi-separator
header of the spec's own example. -/
theorem C6_amended_witness :
    ∃ a b, headerOf "Backend @ Scale @ Acme\nBody".toList = a ++ atSep ++ b ∧
      containsSub atSep b = false ∧
      splitJobDocument "Backend @ Scale @ Acme\nBody".toList
        = .ok ⟨headerOf "Backend @ Scale @ Acme\nBody".toList, pyStrip b,
            bodyOf "Backend @ Scale @ Acme\nBody".toList⟩ :=
  C6_amended _ (by decide)

end RenderCVServer
